import Mathlib

/-!
Shallow embedding of the wayclip daemon core (Wayland clipboard-history
service) and proofs about it.

The definitions below are translated from the Rust sources:
  crates/wayclip-common/src/types.rs      (ContentType, MIME selection)
  crates/wayclip-common/src/protocol.rs   (Request/Response codec)
  crates/wayclip-daemon/src/main.rs       (coordinator, preview generation)
  crates/wayclip-daemon/src/database/operations.rs (history store)
  crates/wayclip-daemon/src/ipc/server.rs (per-connection IPC loop)

External components (the sha2 crate, the serde_json byte serializer, the
SQLite engine including its FTS5 index, the Wayland compositor and the
wl-copy publisher process) are not part of this repository; where an
operation delegates to one of them the embedding takes the external
behaviour as a parameter or as a clearly marked model.
-/

namespace Wayclip

/-- A raw byte as captured from the clipboard pipe (a Rust u8, value below 256). -/
abbrev Byte := Nat

/-- Rust char::is_whitespace: the Unicode White_Space property
(used by str::split_whitespace in generate_preview). -/
def rustIsWs (c : Char) : Bool :=
  c.toNat = 0x20 || c.toNat = 0x09 || c.toNat = 0x0A || c.toNat = 0x0B ||
  c.toNat = 0x0C || c.toNat = 0x0D || c.toNat = 0x85 || c.toNat = 0xA0 ||
  c.toNat = 0x1680 || (0x2000 ≤ c.toNat && c.toNat ≤ 0x200A) ||
  c.toNat = 0x2028 || c.toNat = 0x2029 || c.toNat = 0x202F ||
  c.toNat = 0x205F || c.toNat = 0x3000

/-- One step of the str::split_whitespace scan: the accumulator holds the
word currently being built (to the right of the cursor) and the completed
words further right. -/
def wsStep (c : Char) (acc : List Char × List (List Char)) :
    List Char × List (List Char) :=
  if rustIsWs c then ([], if acc.1.isEmpty then acc.2 else acc.1 :: acc.2)
  else (c :: acc.1, acc.2)

/-- Scan of the whole character list, right to left. -/
def wsScan (cs : List Char) : List Char × List (List Char) :=
  cs.foldr wsStep ([], [])

/-- Close the scan: flush a pending word. -/
def wsFinalize (p : List Char × List (List Char)) : List (List Char) :=
  if p.1.isEmpty then p.2 else p.1 :: p.2

/-- Rust str::split_whitespace: the maximal runs of non-whitespace
characters, in order. -/
def splitWs (cs : List Char) : List (List Char) :=
  wsFinalize (wsScan cs)

/-- Rust Vec::join(" ") over the collected words: the words in order with
a single space between consecutive words. -/
def joinSpace : List (List Char) → List Char
  | [] => []
  | [w] => w
  | w :: rest => w ++ ' ' :: joinSpace rest

/-- Continuation-byte test for UTF-8 decoding. -/
def isCont (b : Byte) : Bool := 0x80 ≤ b && b ≤ 0xBF

/-- The Unicode replacement character U+FFFD. -/
def fffd : Char := Char.ofNat 0xFFFD

/-- Rust String::from_utf8_lossy, fuelled by the number of remaining bytes.
Invalid sequences are replaced by U+FFFD following the substitution of
maximal subparts: a leading byte whose first continuation byte is invalid
costs one replacement for the leading byte alone, a longer valid prefix of
a multi-byte sequence is consumed together with its replacement. -/
def utf8LossyAux : Nat → List Byte → List Char
  | 0, _ => []
  | _, [] => []
  | fuel+1, b :: rest =>
    if b < 0x80 then Char.ofNat b :: utf8LossyAux fuel rest
    else if 0xC2 ≤ b && b ≤ 0xDF then
      match rest with
      | b1 :: rest1 =>
        if isCont b1 then
          Char.ofNat ((b - 0xC0) * 64 + (b1 - 0x80)) :: utf8LossyAux fuel rest1
        else fffd :: utf8LossyAux fuel rest
      | [] => [fffd]
    else if 0xE0 ≤ b && b ≤ 0xEF then
      let lo1 : Byte := if b = 0xE0 then 0xA0 else 0x80
      let hi1 : Byte := if b = 0xED then 0x9F else 0xBF
      match rest with
      | b1 :: rest1 =>
        if lo1 ≤ b1 && b1 ≤ hi1 then
          match rest1 with
          | b2 :: rest2 =>
            if isCont b2 then
              Char.ofNat ((b - 0xE0) * 4096 + (b1 - 0x80) * 64 + (b2 - 0x80)) ::
                utf8LossyAux fuel rest2
            else fffd :: utf8LossyAux fuel rest1
          | [] => [fffd]
        else fffd :: utf8LossyAux fuel rest
      | [] => [fffd]
    else if 0xF0 ≤ b && b ≤ 0xF4 then
      let lo1 : Byte := if b = 0xF0 then 0x90 else 0x80
      let hi1 : Byte := if b = 0xF4 then 0x8F else 0xBF
      match rest with
      | b1 :: rest1 =>
        if lo1 ≤ b1 && b1 ≤ hi1 then
          match rest1 with
          | b2 :: rest2 =>
            if isCont b2 then
              match rest2 with
              | b3 :: rest3 =>
                if isCont b3 then
                  Char.ofNat ((b - 0xF0) * 262144 + (b1 - 0x80) * 4096 +
                      (b2 - 0x80) * 64 + (b3 - 0x80)) :: utf8LossyAux fuel rest3
                else fffd :: utf8LossyAux fuel rest2
              | [] => [fffd]
            else fffd :: utf8LossyAux fuel rest1
          | [] => [fffd]
        else fffd :: utf8LossyAux fuel rest
      | [] => [fffd]
    else fffd :: utf8LossyAux fuel rest

/-- Rust String::from_utf8_lossy on a byte buffer. -/
def utf8Lossy (bs : List Byte) : List Char :=
  utf8LossyAux bs.length bs

/-- The type of clipboard content (wayclip-common/src/types.rs). -/
inductive ContentType where
  | Text
  | Image
deriving DecidableEq, Repr

/-- Rust str::starts_with, on the character level. -/
def strStarts (pre s : String) : Bool := pre.data.isPrefixOf s.data

/-- ContentType::from_mime (wayclip-common/src/types.rs). -/
def ContentType.from_mime (mime : String) : ContentType :=
  if strStarts "image/" mime then .Image else .Text

/-- Rust u32::from_be_bytes over four bytes. -/
def beU32 (b0 b1 b2 b3 : Byte) : Nat :=
  ((b0 * 256 + b1) * 256 + b2) * 256 + b3

/-- generate_preview (wayclip-daemon/src/main.rs). For text: lossy UTF-8
decode, take the first 200 chars, split_whitespace and join with single
spaces. For images: PNG header dimensions when available. -/
def generate_preview (content : List Byte) (mime_type : String)
    (content_type : ContentType) : String :=
  match content_type with
  | .Text => String.mk (joinSpace (splitWs ((utf8Lossy content).take 200)))
  | .Image =>
    if mime_type = "image/png" ∧ 24 ≤ content.length then
      let width := beU32 (content.getD 16 0) (content.getD 17 0)
        (content.getD 18 0) (content.getD 19 0)
      let height := beU32 (content.getD 20 0) (content.getD 21 0)
        (content.getD 22 0) (content.getD 23 0)
      "copied image (" ++ toString width ++ "x" ++ toString height ++ ")"
    else "copied image"

/-- IMAGE_MIME_PRIORITY (wayclip-common/src/types.rs). -/
def IMAGE_MIME_PRIORITY : List String :=
  ["image/png", "image/jpeg", "image/webp", "image/gif", "image/bmp",
   "image/tiff"]

/-- TEXT_MIME_PRIORITY (wayclip-common/src/types.rs). -/
def TEXT_MIME_PRIORITY : List String :=
  ["text/plain;charset=utf-8", "text/plain", "UTF8_STRING", "STRING", "TEXT"]

/-- select_best_mime_type (wayclip-common/src/types.rs): first image
priority occurring in the offered list, else first text priority, else the
first offered MIME type. -/
def select_best_mime_type (offered : List String) : Option String :=
  match IMAGE_MIME_PRIORITY.find? (fun p => offered.contains p) with
  | some p => some p
  | none =>
    match TEXT_MIME_PRIORITY.find? (fun p => offered.contains p) with
    | some p => some p
    | none => offered.head?

/-- Normalisation of a single character used by the spec-side description
of the text preview: any whitespace character becomes a plain space. -/
def normWs (c : Char) : Char := if rustIsWs c then ' ' else c

/-- Spec-side description of whitespace collapsing: every maximal run of
whitespace characters becomes a single space. -/
def collapseRuns : List Char → List Char
  | [] => []
  | [c] => [normWs c]
  | c :: d :: rest =>
    if rustIsWs c && rustIsWs d then collapseRuns (d :: rest)
    else normWs c :: collapseRuns (d :: rest)

/-- Drop leading spaces. -/
def trimLead (cs : List Char) : List Char := cs.dropWhile (· == ' ')

/-- Drop trailing spaces. -/
def trimTrail (cs : List Char) : List Char :=
  (cs.reverse.dropWhile (· == ' ')).reverse

/-- Drop leading and trailing spaces. -/
def trimSpaces (cs : List Char) : List Char := trimTrail (trimLead cs)

/-- The text preview exactly as the specification words it: decode the
bytes as UTF-8 lossily, truncate to the first 200 code points, collapse
every run of whitespace into a single space and trim both ends. -/
def specTextPreview (content : List Byte) : String :=
  String.mk (trimSpaces (collapseRuns ((utf8Lossy content).take 200)))

/-- The space that collapseRuns leaves at the front when the input starts
with whitespace; trimming removes it. -/
def leadSp (cs : List Char) : List Char :=
  match cs.head? with
  | some c => if rustIsWs c then [' '] else []
  | none => []

/-- The space that collapseRuns leaves at the back when the input ends
with whitespace and contains at least one word; trimming removes it. -/
def trailSp (cs : List Char) : List Char :=
  match cs.getLast? with
  | some c => if rustIsWs c && !(splitWs cs).isEmpty then [' '] else []
  | none => []

/-- A minimal PNG header: width 4 and height 2 at offsets 16 and 20. -/
def pngBytes : List Byte :=
  [137, 80, 78, 71, 13, 10, 26, 10, 0, 0, 0, 13, 73, 72, 68, 82,
   0, 0, 0, 4, 0, 0, 0, 2]

/-- A row of the entries table (database/schema.rs). -/
structure Entry where
  id : Int
  content_hash : String
  content_type : ContentType
  mime_type : String
  preview : String
  byte_size : Nat
  created_at : Int
  last_used_at : Int
  use_count : Nat
  pinned : Bool
deriving DecidableEq, Repr

/-- HistoryEntry (wayclip-common/src/types.rs): the metadata sent over IPC. -/
structure HistoryEntry where
  id : Int
  content_type : ContentType
  mime_type : String
  preview : String
  byte_size : Nat
  created_at : Int
  pinned : Bool
  thumbnail : Option String
deriving DecidableEq, Repr

/-- row_to_entry (database/operations.rs): project an entries row to the
IPC metadata record; the thumbnail column does not exist, so it is None. -/
def rowToHistoryEntry (e : Entry) : HistoryEntry :=
  { id := e.id, content_type := e.content_type, mime_type := e.mime_type,
    preview := e.preview, byte_size := e.byte_size,
    created_at := e.created_at, pinned := e.pinned, thumbnail := none }

/-- The persistent store: the entries table, the content table
(entry_id plus blob) and the next AUTOINCREMENT rowid. -/
structure Store where
  entries : List Entry
  contents : List (Int × List Byte)
  nextId : Int
deriving DecidableEq, Repr

/-- A freshly created database. -/
def Store.empty : Store := { entries := [], contents := [], nextId := 1 }

/-- DaemonConfig (config.rs). Sizes are byte counts. -/
structure DaemonConfig where
  max_entries : Nat
  max_entry_size : Nat
  min_entry_size : Nat
  max_age_days : Nat
deriving DecidableEq, Repr

/-- ClipboardConfig (config.rs). -/
structure ClipboardConfig where
  ignore_mime_patterns : List String
  ignore_app_patterns : List String
deriving DecidableEq, Repr

/-- Config (config.rs). -/
structure Config where
  daemon : DaemonConfig
  clipboard : ClipboardConfig
deriving DecidableEq, Repr

/-- Default::default() for DaemonConfig (config.rs). -/
def DaemonConfig.default : DaemonConfig :=
  { max_entries := 1000, max_entry_size := 10 * 1024 * 1024,
    min_entry_size := 1, max_age_days := 0 }

/-- Default::default() for ClipboardConfig (config.rs): the ignore list
defaults to the password-manager hint MIME. -/
def ClipboardConfig.default : ClipboardConfig :=
  { ignore_mime_patterns := ["x-kde-passwordManagerHint"],
    ignore_app_patterns := [] }

/-- Default::default() for Config (config.rs); also what Config::load
returns, since the bundled toml::from_str stub ignores the file. -/
def Config.default : Config :=
  { daemon := DaemonConfig.default, clipboard := ClipboardConfig.default }

/-- find_by_hash (database/operations.rs):
SELECT id FROM entries WHERE content_hash = hash. -/
def find_by_hash (st : Store) (hash : String) : Option Int :=
  (st.entries.find? (fun e => e.content_hash == hash)).map (fun e => e.id)

/-- The row update applied by both touch operations: set last_used_at to
now and increment use_count. -/
def touched (e : Entry) (now : Int) : Entry :=
  { e with last_used_at := now, use_count := e.use_count + 1 }

/-- touch_by_hash (database/operations.rs):
UPDATE entries SET last_used_at = now, use_count = use_count + 1
WHERE content_hash = hash. -/
def touch_by_hash (st : Store) (hash : String) (now : Int) : Store :=
  { st with entries :=
      st.entries.map (fun e => if e.content_hash == hash then touched e now else e) }

/-- touch_entry (database/operations.rs): the same update keyed by id. -/
def touch_entry (st : Store) (id : Int) (now : Int) : Store :=
  { st with entries :=
      st.entries.map (fun e => if e.id == id then touched e now else e) }

/-- insert_entry (database/operations.rs): INSERT the entries row (with
created_at = last_used_at = now, use_count defaulting to 1, pinned
defaulting to 0) and then the content row under last_insert_rowid. -/
def insert_entry (st : Store) (hash : String) (ct : ContentType)
    (mime : String) (preview : String) (content : List Byte) (now : Int) :
    Store :=
  let e : Entry :=
    { id := st.nextId, content_hash := hash, content_type := ct,
      mime_type := mime, preview := preview, byte_size := content.length,
      created_at := now, last_used_at := now, use_count := 1,
      pinned := false }
  { entries := st.entries ++ [e],
    contents := st.contents ++ [(st.nextId, content)],
    nextId := st.nextId + 1 }

/-- The ordering used by the eviction subquery ORDER BY last_used_at ASC;
ties are resolved by rowid, the order in which SQLite scans equal keys. -/
def EvictLE (a b : Entry) : Prop :=
  a.last_used_at < b.last_used_at ∨
    (a.last_used_at = b.last_used_at ∧ a.id ≤ b.id)

instance : DecidableRel EvictLE := fun _ _ =>
  inferInstanceAs (Decidable (_ ∨ _))

instance : IsTotal Entry EvictLE := ⟨by intro a b; unfold EvictLE; omega⟩

instance : IsTrans Entry EvictLE := ⟨by intro a b c; unfold EvictLE; omega⟩

/-- The subquery of cleanup (database/operations.rs):
SELECT id FROM entries WHERE pinned = 0 ORDER BY last_used_at ASC
LIMIT (count - max_entries). -/
def evictVictims (max_entries : Nat) (st : Store) : List Int :=
  ((List.insertionSort EvictLE (st.entries.filter (fun e => !e.pinned))).take
    ((st.entries.filter (fun e => !e.pinned)).length - max_entries)).map
    (fun e => e.id)

/-- cleanup (database/operations.rs): count the non-pinned rows and, when
the count exceeds max_entries, delete the excess non-pinned rows taken in
ascending last_used_at order; content rows go with their entry (CASCADE). -/
def cleanup (max_entries : Nat) (st : Store) : Store :=
  let nonPinned := st.entries.filter (fun e => !e.pinned)
  if nonPinned.length > max_entries then
    let victims := evictVictims max_entries st
    { st with
      entries := st.entries.filter (fun e => !victims.contains e.id),
      contents := st.contents.filter (fun c => !victims.contains c.1) }
  else st

/-- Modelled from the spec: the eviction pass sweep(max_entries,
max_age_days) of section 4.C4, whose age rule (delete every non-pinned
Entry with created_at < now - max_age_days * 86400 when max_age_days > 0)
is absent from the source cleanup; the count rule is the source cleanup. -/
def sweepSpec (max_entries max_age_days : Nat) (now : Int) (st : Store) :
    Store :=
  let st1 :=
    if 0 < max_age_days then
      let cutoff : Int := now - (max_age_days : Int) * 86400
      let keep := fun (e : Entry) =>
        !(!e.pinned && decide (e.created_at < cutoff))
      { st with
        entries := st.entries.filter keep,
        contents := st.contents.filter (fun c =>
          (st.entries.filter keep).any (fun e => e.id == c.1)) }
    else st
  cleanup max_entries st1

/-- The ordering of history listings, ORDER BY created_at DESC; ties are
resolved by rowid. -/
def HistOrder (a b : Entry) : Prop :=
  b.created_at < a.created_at ∨ (b.created_at = a.created_at ∧ a.id ≤ b.id)

instance : DecidableRel HistOrder := fun _ _ =>
  inferInstanceAs (Decidable (_ ∨ _))

instance : IsTotal Entry HistOrder := ⟨by intro a b; unfold HistOrder; omega⟩

instance : IsTrans Entry HistOrder := ⟨by intro a b c; unfold HistOrder; omega⟩

/-- One step of the FTS tokenizer scan: keep maximal alphanumeric runs,
case-folded. -/
def tokStep (c : Char) (acc : List Char × List (List Char)) :
    List Char × List (List Char) :=
  if c.isAlphanum then (c.toLower :: acc.1, acc.2)
  else ([], if acc.1.isEmpty then acc.2 else acc.1 :: acc.2)

/-- Modelled from the spec: the tokenizer of the external SQLite FTS5
engine (unicode61), restricted to alphanumeric runs with case folding. -/
def ftsTokens (s : String) : List String :=
  (wsFinalize (s.data.foldr tokStep ([], []))).map String.mk

/-- Modelled from the spec: the external FTS5 MATCH of the prefix query
that get_history builds from the search text; the preview matches when
some of its tokens has the case-folded search text as a prefix, the
case-insensitive prefix query of section 4.C4. -/
def ftsMatch (search : String) (preview : String) : Bool :=
  (ftsTokens preview).any (fun tok =>
    (search.data.map Char.toLower).isPrefixOf tok.data)

/-- get_history (database/operations.rs). With a search argument: count
and page the rows whose preview MATCHes the prefix query, ordered by
created_at DESC; without: page all rows in the same order and return the
total row count. limit defaults to 100 and offset to 0. -/
def get_history (st : Store) (limit offset : Option Nat)
    (search : Option String) : List HistoryEntry × Nat :=
  let limit := limit.getD 100
  let offset := offset.getD 0
  match search with
  | some s =>
    let matching := st.entries.filter (fun e => ftsMatch s e.preview)
    let sorted := List.insertionSort HistOrder matching
    (((sorted.drop offset).take limit).map rowToHistoryEntry,
      matching.length)
  | none =>
    let sorted := List.insertionSort HistOrder st.entries
    (((sorted.drop offset).take limit).map rowToHistoryEntry,
      st.entries.length)

/-- get_content (database/operations.rs): INNER JOIN of entries and
content on the id. -/
def get_content (st : Store) (id : Int) : Option (String × List Byte) :=
  match st.entries.find? (fun e => e.id == id),
      st.contents.find? (fun c => c.1 == id) with
  | some e, some c => some (e.mime_type, c.2)
  | _, _ => none

/-- handle_clipboard_event (main.rs): admission by size bounds, SHA-256
dedup (touch on collision), preview generation, insert, then cleanup with
max_entries only. The SHA-256 lowercase-hex digest is computed by the
external sha2 crate and enters the embedding as the hashHex parameter. -/
def handle_clipboard_event (hashHex : List Byte → String) (cfg : Config)
    (st : Store) (content : List Byte) (mime_type : String) (now : Int) :
    Store :=
  if content.length > cfg.daemon.max_entry_size then st
  else if content.length < cfg.daemon.min_entry_size then st
  else
    let hash := hashHex content
    match find_by_hash st hash with
    | some _ => touch_by_hash st hash now
    | none =>
      let content_type := ContentType.from_mime mime_type
      let preview := generate_preview content mime_type content_type
      cleanup cfg.daemon.max_entries
        (insert_entry st hash content_type mime_type preview content now)

/-- The JSON data model that serde_json serialises to and from; the byte
rendering of a document (serde_json::to_vec / from_slice plus the newline
delimiter) is the external library and is not modelled. -/
inductive Json where
  | null
  | bool (b : Bool)
  | num (n : Int)
  | str (s : String)
  | arr (elems : List Json)
  | obj (fields : List (String × Json))

/-- Request (wayclip-common/src/protocol.rs), an enum tagged by a "type"
field in lower-snake-case; optional fields are omitted when absent. -/
inductive Request where
  | GetHistory (limit : Option Nat) (offset : Option Nat)
      (search : Option String)
  | GetContent (id : Int)
  | SetClipboard (id : Int)
  | DeleteEntry (id : Int)
  | ClearHistory
  | SetPinned (id : Int) (pinned : Bool)
  | GetStatus
  | Ping
deriving DecidableEq, Repr

/-- ErrorCode (wayclip-common/src/protocol.rs). -/
inductive ErrorCode where
  | NotFound
  | DatabaseError
  | ClipboardError
  | InvalidRequest
  | InternalError
deriving DecidableEq, Repr

/-- Response (wayclip-common/src/protocol.rs). -/
inductive Response where
  | History (entries : List HistoryEntry) (total_count : Nat)
  | Content (id : Int) (mime_type : String) (data : String)
  | Ok
  | Error (code : ErrorCode) (message : String)
  | Status (version : String) (entry_count : Nat)
      (database_size_bytes : Nat)
  | Pong
deriving DecidableEq, Repr

/-- Response::error (protocol.rs). -/
def Response.error (code : ErrorCode) (message : String) : Response :=
  .Error code message

/-- Response::not_found (protocol.rs). -/
def Response.notFound (id : Int) : Response :=
  Response.error .NotFound ("Entry " ++ toString id ++ " not found")

/-- A field that serde omits when the value is absent
(skip_serializing_if Option::is_none). -/
def optJsonField (k : String) (v : Option Json) : List (String × Json) :=
  match v with
  | some j => [(k, j)]
  | none => []

/-- Serialisation of ErrorCode: a lower-snake-case string. -/
def ErrorCode.toJson : ErrorCode → Json
  | .NotFound => .str "not_found"
  | .DatabaseError => .str "database_error"
  | .ClipboardError => .str "clipboard_error"
  | .InvalidRequest => .str "invalid_request"
  | .InternalError => .str "internal_error"

/-- Serialisation of ContentType: a lowercase string. -/
def ContentType.toJson : ContentType → Json
  | .Text => .str "text"
  | .Image => .str "image"

/-- Serialisation of HistoryEntry, fields in declaration order, the
thumbnail omitted when None. -/
def HistoryEntry.toJson (e : HistoryEntry) : Json :=
  .obj ([("id", .num e.id), ("content_type", e.content_type.toJson),
    ("mime_type", .str e.mime_type), ("preview", .str e.preview),
    ("byte_size", .num e.byte_size), ("created_at", .num e.created_at),
    ("pinned", .bool e.pinned)] ++
    optJsonField "thumbnail" (e.thumbnail.map .str))

/-- encode_request (protocol.rs) at the JSON document level: the variant
tag goes into the "type" field, parameters follow in declaration order,
absent options are omitted. -/
def encode_request : Request → Json
  | .GetHistory limit offset search =>
    .obj (("type", .str "get_history") ::
      (optJsonField "limit" (limit.map (fun n => .num n)) ++
       optJsonField "offset" (offset.map (fun n => .num n)) ++
       optJsonField "search" (search.map .str)))
  | .GetContent id => .obj [("type", .str "get_content"), ("id", .num id)]
  | .SetClipboard id =>
    .obj [("type", .str "set_clipboard"), ("id", .num id)]
  | .DeleteEntry id => .obj [("type", .str "delete_entry"), ("id", .num id)]
  | .ClearHistory => .obj [("type", .str "clear_history")]
  | .SetPinned id pinned =>
    .obj [("type", .str "set_pinned"), ("id", .num id),
      ("pinned", .bool pinned)]
  | .GetStatus => .obj [("type", .str "get_status")]
  | .Ping => .obj [("type", .str "ping")]

/-- encode_response (protocol.rs) at the JSON document level. -/
def encode_response : Response → Json
  | .History entries total_count =>
    .obj [("type", .str "history"),
      ("entries", .arr (entries.map HistoryEntry.toJson)),
      ("total_count", .num total_count)]
  | .Content id mime_type data =>
    .obj [("type", .str "content"), ("id", .num id),
      ("mime_type", .str mime_type), ("data", .str data)]
  | .Ok => .obj [("type", .str "ok")]
  | .Error code message =>
    .obj [("type", .str "error"), ("code", code.toJson),
      ("message", .str message)]
  | .Status version entry_count database_size_bytes =>
    .obj [("type", .str "status"), ("version", .str version),
      ("entry_count", .num entry_count),
      ("database_size_bytes", .num database_size_bytes)]
  | .Pong => .obj [("type", .str "pong")]

/-- First value stored under a key of a JSON object. -/
def getField (fields : List (String × Json)) (k : String) : Option Json :=
  (fields.find? (fun f => f.1 == k)).map (fun f => f.2)

/-- A mandatory string field. -/
def reqStrField (fields : List (String × Json)) (k : String) :
    Except String String :=
  match getField fields k with
  | some (.str s) => .ok s
  | some _ => .error ("invalid type for " ++ k)
  | none => .error ("missing field " ++ k)

/-- A mandatory boolean field. -/
def reqBoolField (fields : List (String × Json)) (k : String) :
    Except String Bool :=
  match getField fields k with
  | some (.bool b) => .ok b
  | some _ => .error ("invalid type for " ++ k)
  | none => .error ("missing field " ++ k)

/-- A mandatory i64 field. -/
def reqI64Field (fields : List (String × Json)) (k : String) :
    Except String Int :=
  match getField fields k with
  | some (.num n) =>
    if -(2 ^ 63) ≤ n ∧ n < 2 ^ 63 then .ok n
    else .error ("out of range for " ++ k)
  | some _ => .error ("invalid type for " ++ k)
  | none => .error ("missing field " ++ k)

/-- A mandatory u64 field. -/
def reqU64Field (fields : List (String × Json)) (k : String) :
    Except String Nat :=
  match getField fields k with
  | some (.num n) =>
    if 0 ≤ n ∧ n < 2 ^ 64 then .ok n.toNat
    else .error ("out of range for " ++ k)
  | some _ => .error ("invalid type for " ++ k)
  | none => .error ("missing field " ++ k)

/-- An optional u32 field: absent means None. -/
def optU32Field (fields : List (String × Json)) (k : String) :
    Except String (Option Nat) :=
  match getField fields k with
  | none => .ok none
  | some (.num n) =>
    if 0 ≤ n ∧ n < 2 ^ 32 then .ok (some n.toNat)
    else .error ("out of range for " ++ k)
  | some _ => .error ("invalid type for " ++ k)

/-- An optional string field: absent means None. -/
def optStrField (fields : List (String × Json)) (k : String) :
    Except String (Option String) :=
  match getField fields k with
  | none => .ok none
  | some (.str s) => .ok (some s)
  | some _ => .error ("invalid type for " ++ k)

/-- decode_request (protocol.rs) at the JSON document level: dispatch on
the "type" tag; unknown variants and malformed documents are errors. -/
def decode_request (j : Json) : Except String Request :=
  match j with
  | .obj fields =>
    match getField fields "type" with
    | some (.str t) =>
      if t = "get_history" then do
        let limit ← optU32Field fields "limit"
        let offset ← optU32Field fields "offset"
        let search ← optStrField fields "search"
        .ok (.GetHistory limit offset search)
      else if t = "get_content" then do
        let id ← reqI64Field fields "id"
        .ok (.GetContent id)
      else if t = "set_clipboard" then do
        let id ← reqI64Field fields "id"
        .ok (.SetClipboard id)
      else if t = "delete_entry" then do
        let id ← reqI64Field fields "id"
        .ok (.DeleteEntry id)
      else if t = "clear_history" then .ok .ClearHistory
      else if t = "set_pinned" then do
        let id ← reqI64Field fields "id"
        let pinned ← reqBoolField fields "pinned"
        .ok (.SetPinned id pinned)
      else if t = "get_status" then .ok .GetStatus
      else if t = "ping" then .ok .Ping
      else .error ("unknown variant " ++ t)
    | _ => .error "missing type tag"
  | _ => .error "expected an object"

/-- Deserialisation of ContentType. -/
def ContentType.fromJson (j : Json) : Except String ContentType :=
  match j with
  | .str "text" => .ok .Text
  | .str "image" => .ok .Image
  | _ => .error "invalid content_type"

/-- Deserialisation of ErrorCode. -/
def ErrorCode.fromJson (j : Json) : Except String ErrorCode :=
  match j with
  | .str "not_found" => .ok .NotFound
  | .str "database_error" => .ok .DatabaseError
  | .str "clipboard_error" => .ok .ClipboardError
  | .str "invalid_request" => .ok .InvalidRequest
  | .str "internal_error" => .ok .InternalError
  | _ => .error "invalid error code"

/-- Deserialisation of HistoryEntry; a missing thumbnail field is None. -/
def decodeHistoryEntry (j : Json) : Except String HistoryEntry :=
  match j with
  | .obj fields => do
    let id ← reqI64Field fields "id"
    let ctJson ←
      match getField fields "content_type" with
      | some cj => Except.ok cj
      | none => Except.error "missing field content_type"
    let content_type ← ContentType.fromJson ctJson
    let mime_type ← reqStrField fields "mime_type"
    let preview ← reqStrField fields "preview"
    let byte_size ← reqU64Field fields "byte_size"
    let created_at ← reqI64Field fields "created_at"
    let pinned ← reqBoolField fields "pinned"
    let thumbnail ← optStrField fields "thumbnail"
    .ok { id := id, content_type := content_type, mime_type := mime_type,
          preview := preview, byte_size := byte_size,
          created_at := created_at, pinned := pinned,
          thumbnail := thumbnail }
  | _ => .error "expected an object"

/-- Deserialisation of a history entry array. -/
def decodeEntries : List Json → Except String (List HistoryEntry)
  | [] => .ok []
  | j :: rest => do
    let e ← decodeHistoryEntry j
    let es ← decodeEntries rest
    .ok (e :: es)

/-- decode_response (protocol.rs) at the JSON document level. -/
def decode_response (j : Json) : Except String Response :=
  match j with
  | .obj fields =>
    match getField fields "type" with
    | some (.str t) =>
      if t = "history" then do
        let entriesJson ←
          match getField fields "entries" with
          | some (.arr js) => Except.ok js
          | some _ => Except.error "invalid type for entries"
          | none => Except.error "missing field entries"
        let entries ← decodeEntries entriesJson
        let total_count ← reqU64Field fields "total_count"
        .ok (.History entries total_count)
      else if t = "content" then do
        let id ← reqI64Field fields "id"
        let mime_type ← reqStrField fields "mime_type"
        let data ← reqStrField fields "data"
        .ok (.Content id mime_type data)
      else if t = "ok" then .ok .Ok
      else if t = "error" then do
        let codeJson ←
          match getField fields "code" with
          | some cj => Except.ok cj
          | none => Except.error "missing field code"
        let code ← ErrorCode.fromJson codeJson
        let message ← reqStrField fields "message"
        .ok (.Error code message)
      else if t = "status" then do
        let version ← reqStrField fields "version"
        let entry_count ← reqU64Field fields "entry_count"
        let database_size_bytes ← reqU64Field fields "database_size_bytes"
        .ok (.Status version entry_count database_size_bytes)
      else if t = "pong" then .ok .Pong
      else .error ("unknown variant " ++ t)
    | _ => .error "missing type tag"
  | _ => .error "expected an object"

/-- handle_client (ipc/server.rs), sequentialised over the records a
connection delivers before EOF. decode stands for decode_request applied
to the trimmed line (the serde_json byte parser is external); coord stands
for the coordinator reached through the event channel and the one-shot
reply. A record that fails to decode produces an invalid_request response
and the loop continues with the next record. -/
def handle_client (decode : String → Except String Request)
    (coord : Request → Response) : List String → List Response
  | [] => []
  | line :: rest =>
    (match decode line.trim with
     | .error e => Response.error .InvalidRequest ("Invalid request: " ++ e)
     | .ok req => coord req) :: handle_client decode coord rest

/-- The Request::SetClipboard arm of handle_ipc_event (main.rs):
get_content, publish through the external wl-copy helper (its outcome is
the publishRes parameter), and on success touch the entry, discarding the
touch result (the source reads: let _ = db.touch_entry(id)). touchSucceeds
says whether that discarded database update went through. -/
def handle_set_clipboard (st : Store) (publishRes : Except String Unit)
    (touchSucceeds : Bool) (id : Int) (now : Int) : Response × Store :=
  match get_content st id with
  | some _ =>
    match publishRes with
    | .ok _ => (Response.Ok, if touchSucceeds then touch_entry st id now else st)
    | .error e => (Response.error .ClipboardError e, st)
  | none => (Response.notFound id, st)

/-! Theorems. -/

/-- A fixture: one stored text entry with hash "abc". -/
def sampleEntry : Entry :=
  { id := 1, content_hash := "abc", content_type := .Text,
    mime_type := "text/plain", preview := "hi", byte_size := 2,
    created_at := 3, last_used_at := 3, use_count := 1, pinned := false }

/-- A fixture: the store holding sampleEntry and its content row. -/
def sampleStore : Store :=
  { entries := [sampleEntry], contents := [(1, [104, 105])], nextId := 2 }

/-- A fixture for eviction: two non-pinned entries (the id 2 one least
recently used) and one pinned entry. -/
def evictStore : Store :=
  { entries :=
      [{ id := 1, content_hash := "h1", content_type := .Text,
         mime_type := "text/plain", preview := "one", byte_size := 3,
         created_at := 1, last_used_at := 10, use_count := 1,
         pinned := false },
       { id := 2, content_hash := "h2", content_type := .Text,
         mime_type := "text/plain", preview := "two", byte_size := 3,
         created_at := 2, last_used_at := 5, use_count := 1,
         pinned := false },
       { id := 3, content_hash := "h3", content_type := .Text,
         mime_type := "text/plain", preview := "three", byte_size := 5,
         created_at := 3, last_used_at := 1, use_count := 1,
         pinned := true }],
    contents := [(1, [111]), (2, [116]), (3, [112])], nextId := 4 }

/-- A fixture for the missing age rule: a single stale non-pinned entry
created at time 0. -/
def oldStore : Store :=
  { entries :=
      [{ id := 1, content_hash := "h1", content_type := .Text,
         mime_type := "text/plain", preview := "old", byte_size := 3,
         created_at := 0, last_used_at := 0, use_count := 1,
         pinned := false }],
    contents := [(1, [111, 108, 100])], nextId := 2 }

/-- Range side conditions that Rust's numeric field types (u32, i64)
enforce by construction on a Request. -/
def reqWf : Request → Bool
  | .GetHistory limit offset _ =>
    (match limit with | none => true | some n => decide (n < 2 ^ 32)) &&
    (match offset with | none => true | some n => decide (n < 2 ^ 32))
  | .GetContent id => decide (-(2 ^ 63) ≤ id ∧ id < 2 ^ 63)
  | .SetClipboard id => decide (-(2 ^ 63) ≤ id ∧ id < 2 ^ 63)
  | .DeleteEntry id => decide (-(2 ^ 63) ≤ id ∧ id < 2 ^ 63)
  | .ClearHistory => true
  | .SetPinned id _ => decide (-(2 ^ 63) ≤ id ∧ id < 2 ^ 63)
  | .GetStatus => true
  | .Ping => true

/-- Range side conditions on a HistoryEntry (i64 and u64 fields). -/
def entryWf (e : HistoryEntry) : Bool :=
  decide (-(2 ^ 63) ≤ e.id ∧ e.id < 2 ^ 63) &&
  decide (e.byte_size < 2 ^ 64) &&
  decide (-(2 ^ 63) ≤ e.created_at ∧ e.created_at < 2 ^ 63)

/-- Range side conditions on a Response. -/
def respWf : Response → Bool
  | .History entries total_count =>
    entries.all entryWf && decide (total_count < 2 ^ 64)
  | .Content id _ _ => decide (-(2 ^ 63) ≤ id ∧ id < 2 ^ 63)
  | .Ok => true
  | .Error _ _ => true
  | .Status _ entry_count database_size_bytes =>
    decide (entry_count < 2 ^ 64) && decide (database_size_bytes < 2 ^ 64)
  | .Pong => true

/-- Helper: the element found by List.find? is the first satisfying one;
every element of the prefix before it fails the test. -/
theorem find?_first {α : Type} (p : α → Bool) (l : List α) (a : α)
    (h : l.find? p = some a) :
    ∃ n, ∃ hn : n < l.length, l.get ⟨n, hn⟩ = a ∧ p a = true ∧
      ∀ x ∈ l.take n, p x = false := by
  induction l with
  | nil => simp at h
  | cons x xs ih =>
    rw [List.find?_cons] at h
    by_cases hp : p x
    · simp only [hp, cond_true, Option.some.injEq] at h
      subst h
      exact ⟨0, by simp, rfl, hp, by simp⟩
    · simp only [Bool.not_eq_true] at hp
      simp only [hp, cond_false] at h
      obtain ⟨n, hn, hget, hpa, hfirst⟩ := ih h
      refine ⟨n + 1, by simpa using Nat.succ_lt_succ hn, by simpa using hget,
        hpa, ?_⟩
      intro y hy
      rw [List.take_succ_cons] at hy
      rcases List.mem_cons.mp hy with rfl | hy
      · exact hp
      · exact hfirst y hy

/-- C10: when handling set_clipboard with an id whose content exists and
whose publication succeeds, the response is Ok whether or not the
discarded touch update went through; when it does not go through the
store is unchanged, so an Ok response does not guarantee that
last_used_at and use_count were updated. -/
theorem setClipboard_ok_despite_touch_failure (st : Store) (id now : Int)
    (touchSucceeds : Bool) (c : String × List Byte)
    (hget : get_content st id = some c) :
    (handle_set_clipboard st (.ok ()) touchSucceeds id now).1 =
      Response.Ok ∧
    (handle_set_clipboard st (.ok ()) false id now).2 = st := by
  unfold handle_set_clipboard
  rw [hget]
  exact ⟨rfl, rfl⟩

/-- Witness for C10 on the sample store. -/
theorem setClipboard_ok_despite_touch_failure_witness :
    get_content sampleStore 1 = some ("text/plain", [104, 105]) ∧
    (handle_set_clipboard sampleStore (.ok ()) false 1 7).1 =
      Response.Ok ∧
    (handle_set_clipboard sampleStore (.ok ()) false 1 7).2 =
      sampleStore :=
  ⟨by decide,
   setClipboard_ok_despite_touch_failure sampleStore 1 7 false
     ("text/plain", [104, 105]) (by decide)⟩

/-- C6: a record that fails to decode yields an invalid_request error
response on the same connection and the loop goes on serving the
following records: the response list keeps one response per record, and
the response at each position is determined by that record alone. -/
theorem handle_client_survives_invalid
    (decode : String → Except String Request)
    (coord : Request → Response) (lines : List String) :
    (handle_client decode coord lines).length = lines.length ∧
    (∀ bad rest e, decode bad.trim = .error e →
      handle_client decode coord (bad :: rest) =
        Response.error .InvalidRequest ("Invalid request: " ++ e) ::
          handle_client decode coord rest) ∧
    (∀ i, i < lines.length →
      (handle_client decode coord lines)[i]? =
        (lines[i]?).map (fun line =>
          match decode line.trim with
          | .error e =>
            Response.error .InvalidRequest ("Invalid request: " ++ e)
          | .ok req => coord req)) := by
  refine ⟨?_, ?_, ?_⟩
  · induction lines with
    | nil => rfl
    | cons line rest ih => simpa [handle_client] using ih
  · intro bad rest e hbad
    simp [handle_client, hbad]
  · intro i hi
    induction lines generalizing i with
    | nil => simp at hi
    | cons line rest ih =>
      match i with
      | 0 => simp [handle_client]
      | i + 1 =>
        simpa [handle_client] using ih i (by simpa using hi)

/-- Witness for C6: a malformed record between two pings is answered with
invalid_request and the following record is still served. -/
theorem handle_client_survives_invalid_witness :
    (fun s => decode_request (Json.str s)) "nonsense".trim =
      .error "expected an object" ∧
    handle_client (fun s => decode_request (Json.str s))
        (fun _ => Response.Pong) ["nonsense", "more"] =
      [Response.error .InvalidRequest
        "Invalid request: expected an object",
       Response.error .InvalidRequest
        "Invalid request: expected an object"] := by
  refine ⟨rfl, ?_⟩
  have h := (handle_client_survives_invalid
    (fun s => decode_request (Json.str s)) (fun _ => Response.Pong)
    ["nonsense", "more"]).2.1 "nonsense" ["more"] "expected an object" rfl
  rw [h]
  rfl

/-- C9: select_best_mime_type returns the first image priority occurring
in the offered list, else the first text priority occurring, else the
first offered MIME type, and returns none exactly when the offered list
is empty; every returned MIME type occurs in the offered list. -/
theorem select_best_mime_type_spec (offered : List String) :
    (select_best_mime_type offered = none ↔ offered = []) ∧
    (∀ m, select_best_mime_type offered = some m → m ∈ offered) ∧
    ((∃ p ∈ IMAGE_MIME_PRIORITY, p ∈ offered) →
      ∃ n, ∃ hn : n < IMAGE_MIME_PRIORITY.length,
        select_best_mime_type offered =
          some (IMAGE_MIME_PRIORITY.get ⟨n, hn⟩) ∧
        IMAGE_MIME_PRIORITY.get ⟨n, hn⟩ ∈ offered ∧
        ∀ x ∈ IMAGE_MIME_PRIORITY.take n, x ∉ offered) ∧
    ((∀ p ∈ IMAGE_MIME_PRIORITY, p ∉ offered) →
      (∃ p ∈ TEXT_MIME_PRIORITY, p ∈ offered) →
      ∃ n, ∃ hn : n < TEXT_MIME_PRIORITY.length,
        select_best_mime_type offered =
          some (TEXT_MIME_PRIORITY.get ⟨n, hn⟩) ∧
        TEXT_MIME_PRIORITY.get ⟨n, hn⟩ ∈ offered ∧
        ∀ x ∈ TEXT_MIME_PRIORITY.take n, x ∉ offered) ∧
    ((∀ p ∈ IMAGE_MIME_PRIORITY, p ∉ offered) →
      (∀ p ∈ TEXT_MIME_PRIORITY, p ∉ offered) →
      select_best_mime_type offered = offered.head?) := by
  have memc : ∀ {l : List String} {a : String},
      l.contains a = true → a ∈ l := fun h => List.mem_of_elem_eq_true h
  have ncon : ∀ {l : List String} {a : String},
      a ∉ l → l.contains a = false := by
    intro l a h
    cases hc : l.contains a with
    | false => rfl
    | true => exact absurd (memc hc) h
  refine ⟨⟨?_, ?_⟩, ?_, ?_, ?_, ?_⟩
  · intro h
    unfold select_best_mime_type at h
    cases hi : IMAGE_MIME_PRIORITY.find? (fun p => offered.contains p) with
    | some q => rw [hi] at h; simp at h
    | none =>
      rw [hi] at h
      cases ht : TEXT_MIME_PRIORITY.find? (fun p => offered.contains p) with
      | some q => rw [ht] at h; simp at h
      | none =>
        rw [ht] at h
        exact List.head?_eq_none_iff.mp h
  · intro h
    subst h
    decide
  · intro m hm
    unfold select_best_mime_type at hm
    cases hi : IMAGE_MIME_PRIORITY.find? (fun p => offered.contains p) with
    | some q =>
      rw [hi] at hm
      simp only [Option.some.injEq] at hm
      subst hm
      exact memc (List.find?_some hi)
    | none =>
      rw [hi] at hm
      cases ht : TEXT_MIME_PRIORITY.find? (fun p => offered.contains p) with
      | some q =>
        rw [ht] at hm
        simp only [Option.some.injEq] at hm
        subst hm
        exact memc (List.find?_some ht)
      | none =>
        rw [ht] at hm
        exact List.mem_of_mem_head? hm
  · intro hex
    have hsome : (IMAGE_MIME_PRIORITY.find?
        (fun p => offered.contains p)).isSome := by
      rw [List.find?_isSome]
      obtain ⟨p, hp, hpo⟩ := hex
      exact ⟨p, hp, by simpa [List.contains] using List.elem_iff.mpr hpo⟩
    obtain ⟨q, hq⟩ := Option.isSome_iff_exists.mp hsome
    obtain ⟨n, hn, hget, hpq, hfirst⟩ := find?_first _ _ _ hq
    refine ⟨n, hn, ?_, hget ▸ memc hpq, ?_⟩
    · unfold select_best_mime_type
      rw [hq, hget]
    · intro x hx hmem
      have hf := hfirst x hx
      simp at hf
      exact hf hmem
  · intro hnoimg hex
    have hinone : IMAGE_MIME_PRIORITY.find?
        (fun p => offered.contains p) = none := by
      rw [List.find?_eq_none]
      intro p hp
      simpa using ncon (hnoimg p hp)
    have hsome : (TEXT_MIME_PRIORITY.find?
        (fun p => offered.contains p)).isSome := by
      rw [List.find?_isSome]
      obtain ⟨p, hp, hpo⟩ := hex
      exact ⟨p, hp, by simpa [List.contains] using List.elem_iff.mpr hpo⟩
    obtain ⟨q, hq⟩ := Option.isSome_iff_exists.mp hsome
    obtain ⟨n, hn, hget, hpq, hfirst⟩ := find?_first _ _ _ hq
    refine ⟨n, hn, ?_, hget ▸ memc hpq, ?_⟩
    · unfold select_best_mime_type
      rw [hinone, hq, hget]
    · intro x hx hmem
      have hf := hfirst x hx
      simp at hf
      exact hf hmem
  · intro hnoimg hnotxt
    have hinone : IMAGE_MIME_PRIORITY.find?
        (fun p => offered.contains p) = none := by
      rw [List.find?_eq_none]
      intro p hp
      simpa using ncon (hnoimg p hp)
    have htnone : TEXT_MIME_PRIORITY.find?
        (fun p => offered.contains p) = none := by
      rw [List.find?_eq_none]
      intro p hp
      simpa using ncon (hnotxt p hp)
    unfold select_best_mime_type
    rw [hinone, htnone]

/-- Witness for C9: with plain text and PNG both offered, the PNG image
priority wins even though it is offered later. -/
theorem select_best_mime_type_spec_witness :
    (∃ p ∈ IMAGE_MIME_PRIORITY, p ∈ ["text/plain", "image/png"]) ∧
    ∃ n, ∃ hn : n < IMAGE_MIME_PRIORITY.length,
      select_best_mime_type ["text/plain", "image/png"] =
        some (IMAGE_MIME_PRIORITY.get ⟨n, hn⟩) ∧
      IMAGE_MIME_PRIORITY.get ⟨n, hn⟩ ∈ ["text/plain", "image/png"] ∧
      ∀ x ∈ IMAGE_MIME_PRIORITY.take n, x ∉ ["text/plain", "image/png"] :=
  ⟨by decide,
   (select_best_mime_type_spec ["text/plain", "image/png"]).2.2.1
     (by decide)⟩

/-- C1: a capture whose bytes pass the size admission bounds and whose
digest equals the content_hash of a stored Entry creates no new Entry:
the coordinator touches the matching Entry, incrementing use_count by one
and setting last_used_at to now while keeping its other fields, and the
id column, the content table and every other Entry are unchanged. -/
theorem capture_duplicate_is_touch (hashHex : List Byte → String)
    (cfg : Config) (st : Store) (content : List Byte) (mime : String)
    (now : Int)
    (hmax : content.length ≤ cfg.daemon.max_entry_size)
    (hmin : cfg.daemon.min_entry_size ≤ content.length)
    (hdup : ∃ e ∈ st.entries, e.content_hash = hashHex content) :
    (handle_clipboard_event hashHex cfg st content mime now).nextId =
      st.nextId ∧
    (handle_clipboard_event hashHex cfg st content mime now).contents =
      st.contents ∧
    (handle_clipboard_event hashHex cfg st content mime now).entries.length =
      st.entries.length ∧
    (handle_clipboard_event hashHex cfg st content mime now).entries.map
        (fun e => e.id) = st.entries.map (fun e => e.id) ∧
    (∀ e ∈ st.entries, e.content_hash ≠ hashHex content →
      e ∈ (handle_clipboard_event hashHex cfg st content mime now).entries) ∧
    (∀ e ∈ st.entries, e.content_hash = hashHex content →
      { e with last_used_at := now, use_count := e.use_count + 1 } ∈
        (handle_clipboard_event hashHex cfg st content mime now).entries) := by
  have hkey : handle_clipboard_event hashHex cfg st content mime now =
      touch_by_hash st (hashHex content) now := by
    simp only [handle_clipboard_event]
    rw [if_neg (by omega), if_neg (by omega)]
    have hsome : (st.entries.find?
        (fun e => e.content_hash == hashHex content)).isSome := by
      rw [List.find?_isSome]
      obtain ⟨e, he, heq⟩ := hdup
      exact ⟨e, he, by simpa using heq⟩
    obtain ⟨e0, he0⟩ := Option.isSome_iff_exists.mp hsome
    have hfind : find_by_hash st (hashHex content) = some e0.id := by
      unfold find_by_hash
      rw [he0]
      rfl
    rw [hfind]
  rw [hkey]
  unfold touch_by_hash
  refine ⟨rfl, rfl, by simp, ?_, ?_, ?_⟩
  · simp only [List.map_map]
    apply List.map_congr_left
    intro e _
    by_cases h : e.content_hash = hashHex content <;>
      simp [h, touched]
  · intro e he hne
    refine List.mem_map.mpr ⟨e, he, ?_⟩
    rw [if_neg (by simpa using hne)]
  · intro e he hh
    refine List.mem_map.mpr ⟨e, he, ?_⟩
    rw [if_pos (by simpa using hh)]
    rfl

/-- Witness for C1: re-capturing the sample entry bytes under the default
configuration leaves the entry count unchanged. -/
theorem capture_duplicate_is_touch_witness :
    ([104, 105] : List Byte).length ≤ Config.default.daemon.max_entry_size ∧
    Config.default.daemon.min_entry_size ≤ ([104, 105] : List Byte).length ∧
    (∃ e ∈ sampleStore.entries,
      e.content_hash = (fun _ => "abc") ([104, 105] : List Byte)) ∧
    (handle_clipboard_event (fun _ => "abc") Config.default sampleStore
      [104, 105] "text/plain" 9).entries.length =
      sampleStore.entries.length :=
  ⟨by decide, by decide, by decide,
   (capture_duplicate_is_touch (fun _ => "abc") Config.default sampleStore
     [104, 105] "text/plain" 9 (by decide) (by decide)
     (by decide)).2.2.1⟩

/-- Helper: splitting a list by a Boolean test splits its length. -/
theorem length_filter_split {α : Type} (l : List α) (p : α → Bool) :
    (l.filter p).length + (l.filter (fun a => !(p a))).length = l.length := by
  induction l with
  | nil => rfl
  | cons x xs ih =>
    cases h : p x <;> simp [List.filter_cons, h] <;> omega

/-- Helper: anatomy of cleanup when the non-pinned count exceeds
max_entries: writing N for the non-pinned count and k = N - max_entries,
exactly k rows disappear, all of them non-pinned and minimal in the
(last_used_at, id) order among the non-pinned rows; pinned rows survive
unchanged, non-pinned survivors are above every victim, and exactly
max_entries non-pinned rows remain. -/
theorem cleanup_big_spec (max_entries : Nat) (st : Store)
    (hnodup : (st.entries.map (fun e => e.id)).Nodup)
    (hbig : (st.entries.filter (fun e => !e.pinned)).length > max_entries) :
    (cleanup max_entries st).entries.length =
      st.entries.length -
        ((st.entries.filter (fun e => !e.pinned)).length - max_entries) ∧
    ((cleanup max_entries st).entries.filter (fun e => !e.pinned)).length =
      max_entries ∧
    (∀ e ∈ (cleanup max_entries st).entries, e ∈ st.entries) ∧
    (∀ e ∈ st.entries, e.pinned = true →
      e ∈ (cleanup max_entries st).entries) ∧
    (∀ d ∈ st.entries, d ∉ (cleanup max_entries st).entries →
      d.pinned = false ∧
      ∀ s ∈ (cleanup max_entries st).entries, s.pinned = false →
        (d.last_used_at < s.last_used_at ∨
          (d.last_used_at = s.last_used_at ∧ d.id < s.id))) := by
  have hclean : (cleanup max_entries st).entries =
      st.entries.filter
        (fun e => !(evictVictims max_entries st).contains e.id) := by
    simp only [cleanup]
    rw [if_pos hbig]
  have hperm : List.Perm (List.insertionSort EvictLE
      (st.entries.filter (fun e => !e.pinned)))
      (st.entries.filter (fun e => !e.pinned)) :=
    List.perm_insertionSort EvictLE _
  have hslen : (List.insertionSort EvictLE
      (st.entries.filter (fun e => !e.pinned))).length =
      (st.entries.filter (fun e => !e.pinned)).length := hperm.length_eq
  have hnpids : ((st.entries.filter (fun e => !e.pinned)).map
      (fun e => e.id)).Nodup :=
    hnodup.sublist ((List.filter_sublist _).map _)
  have hsids : ((List.insertionSort EvictLE
      (st.entries.filter (fun e => !e.pinned))).map (fun e => e.id)).Nodup :=
    ((hperm.map (fun e => e.id)).nodup_iff).mpr hnpids
  have hsplit := (List.take_append_drop
    ((st.entries.filter (fun e => !e.pinned)).length - max_entries)
    (List.insertionSort EvictLE
      (st.entries.filter (fun e => !e.pinned)))).symm
  have hAlen : ((List.insertionSort EvictLE
      (st.entries.filter (fun e => !e.pinned))).take
      ((st.entries.filter (fun e => !e.pinned)).length -
        max_entries)).length =
      (st.entries.filter (fun e => !e.pinned)).length - max_entries := by
    rw [List.length_take]
    omega
  have hvicdef : evictVictims max_entries st =
      ((List.insertionSort EvictLE
        (st.entries.filter (fun e => !e.pinned))).take
        ((st.entries.filter (fun e => !e.pinned)).length -
          max_entries)).map (fun e => e.id) := rfl
  -- every taken row is a victim, every dropped row is not
  have hAvic : ∀ a ∈ (List.insertionSort EvictLE
      (st.entries.filter (fun e => !e.pinned))).take
      ((st.entries.filter (fun e => !e.pinned)).length - max_entries),
      a.id ∈ evictVictims max_entries st := by
    intro a ha
    rw [hvicdef]
    exact List.mem_map_of_mem _ ha
  have hBvic : ∀ b ∈ (List.insertionSort EvictLE
      (st.entries.filter (fun e => !e.pinned))).drop
      ((st.entries.filter (fun e => !e.pinned)).length - max_entries),
      b.id ∉ evictVictims max_entries st := by
    intro b hb hmem
    rw [hvicdef] at hmem
    obtain ⟨a, ha, hav⟩ := List.mem_map.mp hmem
    have hnodupAB := hsids
    rw [hsplit, List.map_append] at hnodupAB
    exact (List.nodup_append.mp hnodupAB).2.2
      (List.mem_map_of_mem _ ha) (hav ▸ List.mem_map_of_mem _ hb)
  -- a victim id always belongs to a non-pinned row of the store
  have hvicsrc : ∀ i ∈ evictVictims max_entries st,
      ∃ a, a ∈ (List.insertionSort EvictLE
        (st.entries.filter (fun e => !e.pinned))).take
        ((st.entries.filter (fun e => !e.pinned)).length - max_entries) ∧
        a.id = i ∧ a ∈ st.entries ∧ a.pinned = false := by
    intro i hi
    rw [hvicdef] at hi
    obtain ⟨a, ha, hav⟩ := List.mem_map.mp hi
    have hanp : a ∈ st.entries.filter (fun e => !e.pinned) :=
      hperm.mem_iff.mp (List.mem_of_mem_take ha)
    have haE := (List.mem_filter.mp hanp).1
    have hap : a.pinned = false := by
      have := (List.mem_filter.mp hanp).2
      simpa using this
    exact ⟨a, ha, hav, haE, hap⟩
  have hpinNotVic : ∀ e ∈ st.entries, e.pinned = true →
      e.id ∉ evictVictims max_entries st := by
    intro e he hp hmem
    obtain ⟨a, _, hav, haE, hap⟩ := hvicsrc _ hmem
    have hae : a = e := List.inj_on_of_nodup_map hnodup haE he hav
    rw [hae, hp] at hap
    cases hap
  -- the count of victim rows in the store is exactly k
  have hcnt : (st.entries.filter
      (fun e => (evictVictims max_entries st).contains e.id)).length =
      (st.entries.filter (fun e => !e.pinned)).length - max_entries := by
    have h1 : st.entries.filter
        (fun e => (evictVictims max_entries st).contains e.id) =
        st.entries.filter
          (fun e => (evictVictims max_entries st).contains e.id &&
            !e.pinned) := by
      apply List.filter_congr
      intro e he
      cases hc : (evictVictims max_entries st).contains e.id
      · simp
      · have hmem : e.id ∈ evictVictims max_entries st := by
          simpa using hc
        obtain ⟨a, _, hav, haE, hap⟩ := hvicsrc _ hmem
        have hae : a = e := List.inj_on_of_nodup_map hnodup haE he hav
        rw [hae] at hap
        simp [hap]
    rw [h1, ← List.filter_filter]
    have h2 := (hperm.filter
      (fun e => (evictVictims max_entries st).contains e.id)).length_eq
    rw [← h2]
    rw [hsplit, List.filter_append, List.length_append]
    have hA : ((List.insertionSort EvictLE
        (st.entries.filter (fun e => !e.pinned))).take
        ((st.entries.filter (fun e => !e.pinned)).length -
          max_entries)).filter
        (fun e => (evictVictims max_entries st).contains e.id) =
        (List.insertionSort EvictLE
          (st.entries.filter (fun e => !e.pinned))).take
          ((st.entries.filter (fun e => !e.pinned)).length -
            max_entries) := by
      apply List.filter_eq_self.mpr
      intro a ha
      simpa using hAvic a ha
    have hB : ((List.insertionSort EvictLE
        (st.entries.filter (fun e => !e.pinned))).drop
        ((st.entries.filter (fun e => !e.pinned)).length -
          max_entries)).filter
        (fun e => (evictVictims max_entries st).contains e.id) = [] := by
      apply List.filter_eq_nil_iff.mpr
      intro b hb
      simpa using hBvic b hb
    rw [hA, hB, hAlen]
    simp
  refine ⟨?_, ?_, ?_, ?_, ?_⟩
  · rw [hclean]
    have hsplitLen := length_filter_split st.entries
      (fun e => (evictVictims max_entries st).contains e.id)
    rw [hcnt] at hsplitLen
    have hgoal : (st.entries.filter (fun e =>
        !(evictVictims max_entries st).contains e.id)).length =
        (st.entries.filter (fun a =>
          !((fun e => (evictVictims max_entries st).contains e.id)
            a))).length := rfl
    rw [hgoal]
    omega
  · rw [hclean]
    rw [List.filter_filter]
    have h1 : st.entries.filter (fun e =>
        !e.pinned && !(evictVictims max_entries st).contains e.id) =
        st.entries.filter (fun e =>
          !(evictVictims max_entries st).contains e.id && !e.pinned) := by
      apply List.filter_congr
      intro e _
      cases (evictVictims max_entries st).contains e.id <;>
        cases e.pinned <;> rfl
    rw [h1, ← List.filter_filter]
    have h2 := (hperm.filter (fun e =>
      !(evictVictims max_entries st).contains e.id)).length_eq
    rw [← h2]
    rw [hsplit, List.filter_append, List.length_append]
    have hA : ((List.insertionSort EvictLE
        (st.entries.filter (fun e => !e.pinned))).take
        ((st.entries.filter (fun e => !e.pinned)).length -
          max_entries)).filter
        (fun e => !(evictVictims max_entries st).contains e.id) = [] := by
      apply List.filter_eq_nil_iff.mpr
      intro a ha
      simpa using hAvic a ha
    have hB : ((List.insertionSort EvictLE
        (st.entries.filter (fun e => !e.pinned))).drop
        ((st.entries.filter (fun e => !e.pinned)).length -
          max_entries)).filter
        (fun e => !(evictVictims max_entries st).contains e.id) =
        (List.insertionSort EvictLE
          (st.entries.filter (fun e => !e.pinned))).drop
          ((st.entries.filter (fun e => !e.pinned)).length -
            max_entries) := by
      apply List.filter_eq_self.mpr
      intro b hb
      simpa using hBvic b hb
    rw [hA, hB]
    simp only [List.length_nil, List.length_drop, Nat.zero_add]
    omega
  · rw [hclean]
    exact fun e he => (List.mem_filter.mp he).1
  · rw [hclean]
    intro e he hp
    refine List.mem_filter.mpr ⟨he, ?_⟩
    simpa using hpinNotVic e he hp
  · rw [hclean]
    intro d hd hnotin
    have hdc : d.id ∈ evictVictims max_entries st := by
      by_contra hc
      exact hnotin (List.mem_filter.mpr ⟨hd, by simpa using hc⟩)
    obtain ⟨a, haA, hav, haE, hap⟩ := hvicsrc _ hdc
    have had : a = d := List.inj_on_of_nodup_map hnodup haE hd hav
    have hdA : d ∈ (List.insertionSort EvictLE
        (st.entries.filter (fun e => !e.pinned))).take
        ((st.entries.filter (fun e => !e.pinned)).length - max_entries) :=
      had ▸ haA
    have hdp : d.pinned = false := had ▸ hap
    refine ⟨hdp, ?_⟩
    intro s hs hsp
    have hsE : s ∈ st.entries := (List.mem_filter.mp hs).1
    have hsnc : s.id ∉ evictVictims max_entries st := by
      have := (List.mem_filter.mp hs).2
      simpa using this
    have hsnp : s ∈ st.entries.filter (fun e => !e.pinned) :=
      List.mem_filter.mpr ⟨hsE, by simp [hsp]⟩
    have hssorted : s ∈ List.insertionSort EvictLE
        (st.entries.filter (fun e => !e.pinned)) := hperm.mem_iff.mpr hsnp
    have hsB : s ∈ (List.insertionSort EvictLE
        (st.entries.filter (fun e => !e.pinned))).drop
        ((st.entries.filter (fun e => !e.pinned)).length - max_entries) := by
      rw [hsplit] at hssorted
      rcases List.mem_append.mp hssorted with hA' | hB'
      · exact absurd (hAvic s hA') hsnc
      · exact hB'
    have hpair : List.Pairwise EvictLE ((List.insertionSort EvictLE
        (st.entries.filter (fun e => !e.pinned))).take
        ((st.entries.filter (fun e => !e.pinned)).length - max_entries) ++
        (List.insertionSort EvictLE
          (st.entries.filter (fun e => !e.pinned))).drop
        ((st.entries.filter (fun e => !e.pinned)).length - max_entries)) := by
      have := List.sorted_insertionSort EvictLE
        (st.entries.filter (fun e => !e.pinned))
      rw [hsplit] at this
      exact this
    have hds : EvictLE d s :=
      ((List.pairwise_append.mp hpair).2.2) d hdA s hsB
    have hneid : d.id ≠ s.id := by
      intro hid
      have : d = s := List.inj_on_of_nodup_map hnodup hd hsE hid
      rw [this] at hnotin
      exact hnotin hs
    unfold EvictLE at hds
    omega

/-- C3: after an eviction pass the number of non-pinned entries is at
most max_entries, and every pinned Entry present in the store before the
pass is still present, unmodified, after it. -/
theorem cleanup_bounds_and_preserves_pinned (max_entries : Nat)
    (st : Store) (hnodup : (st.entries.map (fun e => e.id)).Nodup) :
    ((cleanup max_entries st).entries.filter (fun e => !e.pinned)).length ≤
      max_entries ∧
    (∀ e ∈ st.entries, e.pinned = true →
      e ∈ (cleanup max_entries st).entries) := by
  by_cases hbig :
    (st.entries.filter (fun e => !e.pinned)).length > max_entries
  · obtain ⟨_, h2, _, h4, _⟩ := cleanup_big_spec max_entries st hnodup hbig
    exact ⟨le_of_eq h2, h4⟩
  · have hid : cleanup max_entries st = st := by
      simp only [cleanup]
      rw [if_neg hbig]
    rw [hid]
    exact ⟨by omega, fun e he _ => he⟩

/-- Witness for C3 on the eviction fixture with max_entries = 1. -/
theorem cleanup_bounds_and_preserves_pinned_witness :
    (evictStore.entries.map (fun e => e.id)).Nodup ∧
    ((cleanup 1 evictStore).entries.filter (fun e => !e.pinned)).length ≤
      1 :=
  ⟨by decide,
   (cleanup_bounds_and_preserves_pinned 1 evictStore (by decide)).1⟩

/-- Counterexample to C2 as stated: with max_age_days = 1 at time 864000
the single non-pinned entry of oldStore is stale (created_at 0 lies
before now minus 86400 seconds), so the claimed first rule would delete
it, but the eviction pass the source runs (cleanup, which takes only
max_entries) deletes nothing; the sweep the spec describes would leave
the store empty. -/
theorem cleanup_ignores_max_age_counterexample :
    (∀ e ∈ oldStore.entries, e.pinned = false ∧
      e.created_at < (864000 : Int) - 1 * 86400) ∧
    cleanup 10 oldStore = oldStore ∧
    (sweepSpec 10 1 864000 oldStore).entries = [] := by decide

/-- C2 (amended): the source eviction pass consults no age parameter and
applies only the count rule: when the count N of non-pinned Entries
exceeds max_entries, it deletes exactly N - max_entries Entries, all
non-pinned, namely those smallest in last_used_at order with ties broken
by smallest id, and deletes no other Entry. -/
theorem cleanup_count_rule (max_entries : Nat) (st : Store)
    (hnodup : (st.entries.map (fun e => e.id)).Nodup)
    (hbig : (st.entries.filter (fun e => !e.pinned)).length > max_entries) :
    (cleanup max_entries st).entries.length =
      st.entries.length -
        ((st.entries.filter (fun e => !e.pinned)).length - max_entries) ∧
    (∀ e ∈ (cleanup max_entries st).entries, e ∈ st.entries) ∧
    (∀ d ∈ st.entries, d ∉ (cleanup max_entries st).entries →
      d.pinned = false ∧
      ∀ s ∈ (cleanup max_entries st).entries, s.pinned = false →
        (d.last_used_at < s.last_used_at ∨
          (d.last_used_at = s.last_used_at ∧ d.id < s.id))) := by
  obtain ⟨h1, _, h3, _, h5⟩ := cleanup_big_spec max_entries st hnodup hbig
  exact ⟨h1, h3, h5⟩

/-- Witness for the amended C2 on the eviction fixture: one of the two
non-pinned entries is deleted. -/
theorem cleanup_count_rule_witness :
    (evictStore.entries.map (fun e => e.id)).Nodup ∧
    (evictStore.entries.filter (fun e => !e.pinned)).length > 1 ∧
    (cleanup 1 evictStore).entries.length =
      evictStore.entries.length -
        ((evictStore.entries.filter (fun e => !e.pinned)).length - 1) :=
  ⟨by decide, by decide,
   (cleanup_count_rule 1 evictStore (by decide) (by decide)).1⟩

/-- C4 exhibits the code bug: nothing in the source ever reads
clipboard.ignore_mime_patterns, so a capture whose MIME type equals the
default password-manager ignore pattern (which any regex engine matches
against itself) is stored as a new Entry instead of being dropped. -/
theorem ignored_mime_is_still_stored :
    "x-kde-passwordManagerHint" ∈
      Config.default.clipboard.ignore_mime_patterns ∧
    (handle_clipboard_event (fun _ => "h0") Config.default Store.empty
        [115, 101, 99] "x-kde-passwordManagerHint" 5).entries.map
        (fun e => (e.id, e.mime_type)) =
      [(1, "x-kde-passwordManagerHint")] := by decide

/-- Helper: a page of a history listing is sorted by created_at
descending. -/
theorem pairwise_sorted_page (X : List Entry) (l o : Nat) :
    List.Pairwise (fun a b => b.created_at ≤ a.created_at)
      ((((List.insertionSort HistOrder X).drop o).take l).map
        rowToHistoryEntry) := by
  have hsorted : List.Pairwise HistOrder (List.insertionSort HistOrder X) :=
    List.sorted_insertionSort HistOrder X
  have hsub : (((List.insertionSort HistOrder X).drop o).take l).Sublist
      (List.insertionSort HistOrder X) :=
    (List.take_sublist _ _).trans (List.drop_sublist _ _)
  have hpage := hsorted.sublist hsub
  rw [List.pairwise_map]
  refine hpage.imp ?_
  intro a b hab
  unfold HistOrder at hab
  show b.created_at ≤ a.created_at
  omega

/-- Helper: members of a history page come from the listed rows. -/
theorem page_mem {X : List Entry} {l o : Nat} {he : HistoryEntry}
    (h : he ∈ (((List.insertionSort HistOrder X).drop o).take l).map
      rowToHistoryEntry) :
    ∃ e ∈ X, rowToHistoryEntry e = he := by
  obtain ⟨e, hmem, heq⟩ := List.mem_map.mp h
  have hX : e ∈ X :=
    (List.perm_insertionSort HistOrder X).mem_iff.mp
      (List.mem_of_mem_drop (List.mem_of_mem_take hmem))
  exact ⟨e, hX, heq⟩

/-- Helper: a page whose window covers all rows returns exactly the
rows, reordered into descending created_at order. -/
theorem page_all {X : List Entry} {l o : Nat} (ho : o = 0)
    (hl : X.length ≤ l) :
    List.Perm ((((List.insertionSort HistOrder X).drop o).take l).map
      rowToHistoryEntry) (X.map rowToHistoryEntry) := by
  subst ho
  rw [List.drop_zero, List.take_of_length_le]
  · exact (List.perm_insertionSort HistOrder X).map _
  · rw [(List.perm_insertionSort HistOrder X).length_eq]
    exact hl

/-- C5: get_history pages are ordered by created_at descending; with a
search argument the total is the number of rows whose preview matches
the FTS prefix query and the returned page is exactly the limit/offset
window of those rows sorted by created_at descending, so whenever the
window covers every matching row the returned entries are exactly the
matching rows, and each returned entry comes from a matching row; with
no search the page is the window of all rows in the same order and the
total is the full row count, pinned rows included; the total never
depends on limit or offset. -/
theorem get_history_spec (st : Store) (limit offset : Option Nat)
    (search : Option String) :
    List.Pairwise (fun a b => b.created_at ≤ a.created_at)
      (get_history st limit offset search).1 ∧
    (∀ l2 o2, (get_history st l2 o2 search).2 =
      (get_history st limit offset search).2) ∧
    (∀ s, search = some s → s ≠ "" →
      (get_history st limit offset search).2 =
        (st.entries.filter (fun e => ftsMatch s e.preview)).length ∧
      (get_history st limit offset search).1 =
        (((List.insertionSort HistOrder
            (st.entries.filter (fun e => ftsMatch s e.preview))).drop
          (offset.getD 0)).take (limit.getD 100)).map
          rowToHistoryEntry ∧
      (offset.getD 0 = 0 →
        (st.entries.filter (fun e => ftsMatch s e.preview)).length ≤
          limit.getD 100 →
        List.Perm (get_history st limit offset search).1
          ((st.entries.filter (fun e => ftsMatch s e.preview)).map
            rowToHistoryEntry)) ∧
      ∀ he ∈ (get_history st limit offset search).1,
        ∃ e ∈ st.entries, ftsMatch s e.preview = true ∧
          rowToHistoryEntry e = he) ∧
    (search = none →
      (get_history st limit offset search).2 = st.entries.length ∧
      (get_history st limit offset search).1 =
        (((List.insertionSort HistOrder st.entries).drop
          (offset.getD 0)).take (limit.getD 100)).map
          rowToHistoryEntry ∧
      (offset.getD 0 = 0 → st.entries.length ≤ limit.getD 100 →
        List.Perm (get_history st limit offset search).1
          (st.entries.map rowToHistoryEntry)) ∧
      ∀ he ∈ (get_history st limit offset search).1,
        ∃ e ∈ st.entries, rowToHistoryEntry e = he) := by
  refine ⟨?_, ?_, ?_, ?_⟩
  · cases search with
    | none => exact pairwise_sorted_page st.entries _ _
    | some s => exact pairwise_sorted_page _ _ _
  · intro l2 o2
    cases search <;> rfl
  · intro s hsearch _
    subst hsearch
    refine ⟨rfl, rfl, fun ho hl => page_all ho hl, ?_⟩
    intro he hmem
    obtain ⟨e, heX, heq⟩ := page_mem hmem
    have := List.mem_filter.mp heX
    exact ⟨e, this.1, this.2, heq⟩
  · intro hsearch
    subst hsearch
    exact ⟨rfl, rfl, fun ho hl => page_all ho hl,
      fun he hmem => page_mem hmem⟩

/-- Witness for C5: searching the eviction fixture for the prefix "t"
counts the two matching previews and returns exactly those two rows. -/
theorem get_history_spec_witness :
    (some "t" : Option String) = some "t" ∧ "t" ≠ "" ∧
    (Option.getD (none : Option Nat) 0 = 0) ∧
    (evictStore.entries.filter (fun e => ftsMatch "t" e.preview)).length ≤
      Option.getD (none : Option Nat) 100 ∧
    (get_history evictStore none none (some "t")).2 =
      (evictStore.entries.filter
        (fun e => ftsMatch "t" e.preview)).length ∧
    List.Perm (get_history evictStore none none (some "t")).1
      ((evictStore.entries.filter (fun e => ftsMatch "t" e.preview)).map
        rowToHistoryEntry) ∧
    (get_history evictStore none none (some "t")).2 = 2 :=
  ⟨rfl, by decide, rfl, by decide,
   ((get_history_spec evictStore none none (some "t")).2.2.1 "t" rfl
     (by decide)).1,
   ((get_history_spec evictStore none none (some "t")).2.2.1 "t" rfl
     (by decide)).2.2.1 rfl (by decide),
   by decide⟩

/-- Helper: a serialised HistoryEntry deserialises to itself. -/
theorem decodeHistoryEntry_roundtrip (e : HistoryEntry)
    (h : entryWf e = true) :
    decodeHistoryEntry (HistoryEntry.toJson e) = .ok e := by
  obtain ⟨eid, ct, mime, prev, bs, ca, pin, th⟩ := e
  simp only [entryWf, Bool.and_eq_true, decide_eq_true_eq] at h
  obtain ⟨⟨hid, hbs⟩, hca⟩ := h
  have hid2 : -9223372036854775808 ≤ eid ∧ eid < 9223372036854775808 := by
    omega
  have hbs2 : bs < 18446744073709551616 := by omega
  have hca2 : -9223372036854775808 ≤ ca ∧ ca < 9223372036854775808 := by
    omega
  cases ct <;> cases th <;>
    simp [HistoryEntry.toJson, decodeHistoryEntry, getField, reqI64Field,
      reqStrField, reqU64Field, reqBoolField, optStrField, optJsonField,
      ContentType.toJson, ContentType.fromJson, hid2.1, hid2.2, hbs2,
      hca2.1, hca2.2] <;>
    rfl

/-- Helper: a serialised entry list deserialises to itself. -/
theorem decodeEntries_roundtrip (es : List HistoryEntry)
    (h : es.all entryWf = true) :
    decodeEntries (es.map HistoryEntry.toJson) = .ok es := by
  induction es with
  | nil => rfl
  | cons e rest ih =>
    rw [List.all_cons, Bool.and_eq_true] at h
    have h1 := decodeHistoryEntry_roundtrip e h.1
    have h2 := ih h.2
    simp [decodeEntries, h1, h2]
    rfl

/-- Helper: binding a pure Except value reduces. -/
theorem okBind {ε α β : Type} (a : α) (f : α → Except ε β) :
    (Except.ok a : Except ε α) >>= f = f a := rfl

/-- C7: decoding the document produced by encode_request yields an equal
Request, and decoding the document produced by encode_response yields an
equal Response, for every value whose numeric fields respect the Rust
integer ranges (which hold by construction in the source). The byte
rendering of a JSON document and its parse are serde_json, external to
the repository, so the round trip is stated at the document level with
the trailing newline stripped. -/
theorem protocol_roundtrip (r : Request) (resp : Response)
    (hr : reqWf r = true) (hs : respWf resp = true) :
    decode_request (encode_request r) = .ok r ∧
    decode_response (encode_response resp) = .ok resp := by
  constructor
  · cases r with
    | GetHistory limit offset search =>
      simp only [reqWf, Bool.and_eq_true] at hr
      obtain ⟨h1, h2⟩ := hr
      cases limit with
      | none =>
        cases offset with
        | none => cases search <;> rfl
        | some onum =>
          have hO : onum < 4294967296 := of_decide_eq_true h2
          cases search <;>
            simp [encode_request, decode_request, getField, optU32Field,
              optStrField, optJsonField, hO] <;>
            try rfl
      | some lnum =>
        have hL : lnum < 4294967296 := of_decide_eq_true h1
        cases offset with
        | none =>
          cases search <;>
            simp [encode_request, decode_request, getField, optU32Field,
              optStrField, optJsonField, hL] <;>
            try rfl
        | some onum =>
          have hO : onum < 4294967296 := of_decide_eq_true h2
          cases search <;>
            simp [encode_request, decode_request, getField, optU32Field,
              optStrField, optJsonField, hL, hO] <;>
            try rfl
    | GetContent id =>
      simp only [reqWf, decide_eq_true_eq] at hr
      have hid2 : -9223372036854775808 ≤ id ∧ id < 9223372036854775808 := by
        omega
      simp [encode_request, decode_request, getField, reqI64Field,
        optJsonField, hid2.1, hid2.2]
      rfl
    | SetClipboard id =>
      simp only [reqWf, decide_eq_true_eq] at hr
      have hid2 : -9223372036854775808 ≤ id ∧ id < 9223372036854775808 := by
        omega
      simp [encode_request, decode_request, getField, reqI64Field,
        optJsonField, hid2.1, hid2.2]
      rfl
    | DeleteEntry id =>
      simp only [reqWf, decide_eq_true_eq] at hr
      have hid2 : -9223372036854775808 ≤ id ∧ id < 9223372036854775808 := by
        omega
      simp [encode_request, decode_request, getField, reqI64Field,
        optJsonField, hid2.1, hid2.2]
      rfl
    | ClearHistory => rfl
    | SetPinned id pinned =>
      simp only [reqWf, decide_eq_true_eq] at hr
      have hid2 : -9223372036854775808 ≤ id ∧ id < 9223372036854775808 := by
        omega
      simp [encode_request, decode_request, getField, reqI64Field,
        reqBoolField, optJsonField, hid2.1, hid2.2]
      rfl
    | GetStatus => rfl
    | Ping => rfl
  · cases resp with
    | History entries total_count =>
      simp only [respWf, Bool.and_eq_true, decide_eq_true_eq] at hs
      have hent := decodeEntries_roundtrip entries hs.1
      have ht2 : total_count < 18446744073709551616 := hs.2
      simp [encode_response, decode_response, getField, reqU64Field,
        optJsonField, okBind, hent, ht2]
      try rfl
    | Content id mime_type data =>
      simp only [respWf, decide_eq_true_eq] at hs
      have hid2 : -9223372036854775808 ≤ id ∧ id < 9223372036854775808 := by
        omega
      simp [encode_response, decode_response, getField, reqI64Field,
        reqStrField, optJsonField, hid2.1, hid2.2]
      rfl
    | Ok => rfl
    | Error code message =>
      cases code <;> rfl
    | Status version entry_count database_size_bytes =>
      simp only [respWf, Bool.and_eq_true, decide_eq_true_eq] at hs
      have hc2 : entry_count < 18446744073709551616 := hs.1
      have hd2 : database_size_bytes < 18446744073709551616 := hs.2
      simp [encode_response, decode_response, getField, reqStrField,
        reqU64Field, optJsonField, hc2, hd2]
      rfl
    | Pong => rfl

/-- Witness for C7 at a concrete request and response. -/
theorem protocol_roundtrip_witness :
    reqWf (.GetHistory (some 10) none (some "test")) = true ∧
    respWf (.Error .NotFound "Entry 42 not found") = true ∧
    decode_request (encode_request
      (.GetHistory (some 10) none (some "test"))) =
      .ok (.GetHistory (some 10) none (some "test")) ∧
    decode_response (encode_response
      (.Error .NotFound "Entry 42 not found")) =
      .ok (.Error .NotFound "Entry 42 not found") := by
  refine ⟨by decide, by decide, ?_, ?_⟩
  · exact (protocol_roundtrip (.GetHistory (some 10) none (some "test"))
      (.Error .NotFound "Entry 42 not found") (by decide) (by decide)).1
  · exact (protocol_roundtrip (.GetHistory (some 10) none (some "test"))
      (.Error .NotFound "Entry 42 not found") (by decide) (by decide)).2

/-- Helper: the scan unfolds one character at a time. -/
theorem wsScan_cons (c : Char) (cs : List Char) :
    wsScan (c :: cs) = wsStep c (wsScan cs) := rfl

/-- Helper: a leading whitespace character does not change the word
list. -/
theorem splitWs_cons_ws {c : Char} (cs : List Char)
    (hc : rustIsWs c = true) : splitWs (c :: cs) = splitWs cs := by
  simp [splitWs, wsScan_cons, wsStep, wsFinalize, hc]

/-- Helper: a leading non-whitespace character extends the first word. -/
theorem splitWs_cons_nws {c : Char} (cs : List Char)
    (hc : rustIsWs c = false) :
    splitWs (c :: cs) = (c :: (wsScan cs).1) :: (wsScan cs).2 := by
  simp [splitWs, wsScan_cons, wsStep, wsFinalize, hc]

/-- Helper: the pending word after a whitespace head is empty. -/
theorem wsScan_fst_ws {c : Char} (cs : List Char)
    (hc : rustIsWs c = true) : (wsScan (c :: cs)).1 = [] := by
  simp [wsScan_cons, wsStep, hc]

/-- Helper: the pending word under a non-whitespace head. -/
theorem wsScan_fst_nws {c : Char} (cs : List Char)
    (hc : rustIsWs c = false) :
    (wsScan (c :: cs)).1 = c :: (wsScan cs).1 := by
  simp [wsScan_cons, wsStep, hc]

/-- Helper: pending word and produced words hold no whitespace, and
produced words are nonempty. -/
theorem wsScan_wf (cs : List Char) :
    (∀ c ∈ (wsScan cs).1, rustIsWs c = false) ∧
    (∀ w ∈ (wsScan cs).2, w ≠ [] ∧ ∀ c ∈ w, rustIsWs c = false) := by
  induction cs with
  | nil => exact ⟨by simp [wsScan], by simp [wsScan]⟩
  | cons c cs ih =>
    rw [wsScan_cons]
    cases hc : rustIsWs c
    · refine ⟨?_, ?_⟩
      · intro x hx
        simp only [wsStep, hc, Bool.false_eq_true, if_false] at hx
        rcases List.mem_cons.mp hx with rfl | hx
        · exact hc
        · exact ih.1 x hx
      · intro w hw
        simp only [wsStep, hc, Bool.false_eq_true, if_false] at hw
        exact ih.2 w hw
    · refine ⟨?_, ?_⟩
      · intro x hx
        simp only [wsStep, hc, if_true] at hx
        simp at hx
      · intro w hw
        simp only [wsStep, hc, if_true] at hw
        by_cases hcur : (wsScan cs).1.isEmpty
        · rw [if_pos hcur] at hw
          exact ih.2 w hw
        · rw [if_neg hcur] at hw
          rcases List.mem_cons.mp hw with rfl | hw
          · refine ⟨by simpa using hcur, ih.1⟩
          · exact ih.2 w hw

/-- Helper: every produced word is nonempty and whitespace-free. -/
theorem splitWs_wf (cs : List Char) :
    ∀ w ∈ splitWs cs, w ≠ [] ∧ ∀ c ∈ w, rustIsWs c = false := by
  intro w hw
  unfold splitWs wsFinalize at hw
  by_cases hcur : (wsScan cs).1.isEmpty
  · rw [if_pos hcur] at hw
    exact (wsScan_wf cs).2 w hw
  · rw [if_neg hcur] at hw
    rcases List.mem_cons.mp hw with rfl | hw
    · exact ⟨by simpa using hcur, (wsScan_wf cs).1⟩
    · exact (wsScan_wf cs).2 w hw

/-- Helper: when the word list is empty every character was
whitespace. -/
theorem allWs_of_splitWs_nil (cs : List Char) (h : splitWs cs = []) :
    ∀ c ∈ cs, rustIsWs c = true := by
  induction cs with
  | nil => simp
  | cons c cs ih =>
    intro x hx
    cases hc : rustIsWs c
    · rw [splitWs_cons_nws cs hc] at h
      cases h
    · rw [splitWs_cons_ws cs hc] at h
      rcases List.mem_cons.mp hx with rfl | hx
      · exact hc
      · exact ih h x hx

/-- Helper: joining a word list headed by a nonempty word starts with
that word's first character. -/
theorem joinSpace_cons_head (a : Char) (w : List Char)
    (L : List (List Char)) :
    ∃ t, joinSpace ((a :: w) :: L) = a :: t := by
  cases L with
  | nil => exact ⟨w, rfl⟩
  | cons x xs => exact ⟨w ++ ' ' :: joinSpace (x :: xs), rfl⟩

/-- Helper: the join of wellformed words ends with a non-whitespace
character. -/
theorem joinSpace_getLast (w : List Char) (L : List (List Char))
    (hwf : ∀ u ∈ w :: L, u ≠ [] ∧ ∀ c ∈ u, rustIsWs c = false) :
    ∃ jl, (joinSpace (w :: L)).getLast? = some jl ∧
      rustIsWs jl = false := by
  induction L generalizing w with
  | nil =>
    obtain ⟨hne, hchars⟩ := hwf w (by simp)
    refine ⟨w.getLast hne, ?_, hchars _ (List.getLast_mem hne)⟩
    simp [joinSpace, List.getLast?_eq_getLast _ hne]
  | cons x xs ih =>
    obtain ⟨jl, hjl, hws⟩ := ih x (fun u hu => hwf u (by
      rcases List.mem_cons.mp hu with rfl | hu
      · simp
      · simp [hu]))
    refine ⟨jl, ?_, hws⟩
    have hne : joinSpace (x :: xs) ≠ [] := by
      obtain ⟨hxne, _⟩ := hwf x (by simp)
      obtain ⟨a, w', rfl⟩ : ∃ a w', x = a :: w' := by
        cases x with
        | nil => exact absurd rfl hxne
        | cons a w' => exact ⟨a, w', rfl⟩
      obtain ⟨t, ht⟩ := joinSpace_cons_head a w' xs
      simp [ht]
    show (joinSpace (w :: x :: xs)).getLast? = some jl
    have hJ : joinSpace (w :: x :: xs) = w ++ ' ' :: joinSpace (x :: xs) :=
      rfl
    rw [hJ, List.getLast?_append]
    have h1 : (' ' :: joinSpace (x :: xs)).getLast? =
        (joinSpace (x :: xs)).getLast? := by
      cases hj : joinSpace (x :: xs) with
      | nil => exact absurd hj hne
      | cons b t => exact List.getLast?_cons_cons
    rw [h1, hjl]
    rfl

/-- Helper: a non-whitespace character is not the space character. -/
theorem ne_space_of_not_ws {c : Char} (h : rustIsWs c = false) :
    (c == ' ') = false := by
  cases hEq : c == ' '
  · rfl
  · have hce : c = ' ' := by simpa using hEq
    rw [hce] at h
    exact absurd h (by decide)

/-- Helper: joining with a character prepended to the first word. -/
theorem joinSpace_cons_char (a : Char) (w : List Char)
    (L : List (List Char)) :
    joinSpace ((a :: w) :: L) = a :: joinSpace (w :: L) := by
  cases L <;> rfl

/-- Helper: the word list of the scan tail under a non-whitespace
head. -/
theorem wsScan_snd_nws {d : Char} (rest : List Char)
    (hd : rustIsWs d = false) :
    (wsScan (d :: rest)).2 = (wsScan rest).2 := by
  simp [wsScan_cons, wsStep, hd]

/-- Helper: under a whitespace head the produced words are already the
full split. -/
theorem wsScan_snd_ws {d : Char} (rest : List Char)
    (hd : rustIsWs d = true) :
    (wsScan (d :: rest)).2 = splitWs (d :: rest) := by
  simp [wsScan_cons, wsStep, splitWs, wsFinalize, hd]

/-- Helper: trimming the back ignores a trailing space. -/
theorem trimTrail_append_space (X : List Char) :
    trimTrail (X ++ [' ']) = trimTrail X := by
  simp [trimTrail, List.dropWhile_cons]

/-- Helper: trimming the back is the identity when the last character is
not a space. -/
theorem trimTrail_id {X : List Char} {c : Char}
    (hlast : X.getLast? = some c) (hc : (c == ' ') = false) :
    trimTrail X = X := by
  unfold trimTrail
  have hrev : X.reverse.head? = some c := by
    rw [List.head?_reverse, hlast]
  cases hX : X.reverse with
  | nil => rw [hX] at hrev; cases hrev
  | cons a t =>
    rw [hX] at hrev
    simp only [List.head?_cons, Option.some.injEq] at hrev
    subst hrev
    rw [List.dropWhile_cons]
    simp only [hc, Bool.false_eq_true, if_false]
    rw [← hX, List.reverse_reverse]

/-- Helper: collapsing whitespace runs produces the joined words plus an
optional leading and trailing space. -/
theorem collapseRuns_decomp :
    ∀ cs : List Char, cs ≠ [] →
      collapseRuns cs = leadSp cs ++ joinSpace (splitWs cs) ++ trailSp cs
  | [], h => absurd rfl h
  | [c], _ => by
    cases hc : rustIsWs c
    · simp [collapseRuns, normWs, leadSp, trailSp, splitWs, wsScan,
        wsStep, wsFinalize, joinSpace, hc]
    · simp [collapseRuns, normWs, leadSp, trailSp, splitWs, wsScan,
        wsStep, wsFinalize, joinSpace, hc]
  | c :: d :: rest, _ => by
    have ihd := collapseRuns_decomp (d :: rest) (by simp)
    have hglcc : (c :: d :: rest).getLast? = (d :: rest).getLast? :=
      List.getLast?_cons_cons
    cases hc : rustIsWs c <;> cases hd : rustIsWs d
    · -- both non-whitespace: c extends the first word
      have hsplit : splitWs (c :: d :: rest) =
          (c :: (wsScan (d :: rest)).1) :: (wsScan (d :: rest)).2 :=
        splitWs_cons_nws _ hc
      have hsplitd : splitWs (d :: rest) =
          (d :: (wsScan rest).1) :: (wsScan rest).2 :=
        splitWs_cons_nws _ hd
      have hfst : (wsScan (d :: rest)).1 = d :: (wsScan rest).1 :=
        wsScan_fst_nws _ hd
      have hsnd : (wsScan (d :: rest)).2 = (wsScan rest).2 :=
        wsScan_snd_nws _ hd
      have htrail : trailSp (c :: d :: rest) = trailSp (d :: rest) := by
        unfold trailSp
        rw [hglcc, hsplit, hsplitd, hfst]
        rfl
      have hlead : leadSp (d :: rest) = [] := by
        simp [leadSp, hd]
      rw [show collapseRuns (c :: d :: rest) =
            normWs c :: collapseRuns (d :: rest) by
          simp [collapseRuns, hc],
        ihd, hlead, htrail, hsplit, hfst, hsnd, hsplitd]
      rw [joinSpace_cons_char c (d :: (wsScan rest).1),
        joinSpace_cons_char d ((wsScan rest).1)]
      simp [leadSp, normWs, hc]
    · -- c starts a new word before whitespace
      have hsplit : splitWs (c :: d :: rest) =
          [c] :: splitWs (d :: rest) := by
        rw [splitWs_cons_nws _ hc, wsScan_fst_ws _ hd, wsScan_snd_ws _ hd]
      have hleadd : leadSp (d :: rest) = [' '] := by
        simp [leadSp, hd]
      rw [show collapseRuns (c :: d :: rest) =
            normWs c :: collapseRuns (d :: rest) by
          simp [collapseRuns, hc, hd],
        ihd, hleadd]
      cases hspd : splitWs (d :: rest) with
      | nil =>
        have htrd : trailSp (d :: rest) = [] := by
          simp [trailSp, hspd]
          cases (d :: rest).getLast? <;> simp
        have hxws : ∀ x ∈ d :: rest, rustIsWs x = true :=
          allWs_of_splitWs_nil _ hspd
        have htrc : trailSp (c :: d :: rest) = [' '] := by
          unfold trailSp
          rw [hglcc]
          have hne : (d :: rest) ≠ [] := by simp
          rw [List.getLast?_eq_getLast _ hne]
          have hwsl : rustIsWs ((d :: rest).getLast hne) = true :=
            hxws _ (List.getLast_mem hne)
          rw [hsplit, hspd]
          simp [hwsl]
        rw [htrd, htrc, hsplit, hspd]
        simp [joinSpace, leadSp, normWs, hc]
      | cons w L =>
        have htrail : trailSp (c :: d :: rest) = trailSp (d :: rest) := by
          unfold trailSp
          rw [hglcc, hsplit, hspd]
          rfl
        rw [htrail, hsplit, hspd]
        rw [show joinSpace ([c] :: w :: L) =
              c :: ' ' :: joinSpace (w :: L) from rfl]
        simp [leadSp, normWs, hc]
    · -- whitespace then a word character: one space survives
      have hsplit : splitWs (c :: d :: rest) = splitWs (d :: rest) :=
        splitWs_cons_ws _ hc
      have htrail : trailSp (c :: d :: rest) = trailSp (d :: rest) := by
        unfold trailSp
        rw [hglcc, hsplit]
      have hleadd : leadSp (d :: rest) = [] := by
        simp [leadSp, hd]
      rw [show collapseRuns (c :: d :: rest) =
            normWs c :: collapseRuns (d :: rest) by
          simp [collapseRuns, hc, hd],
        ihd, hleadd, htrail, hsplit]
      simp [leadSp, normWs, hc]
    · -- two whitespace characters: the run is merged
      have hsplit : splitWs (c :: d :: rest) = splitWs (d :: rest) :=
        splitWs_cons_ws _ hc
      have htrail : trailSp (c :: d :: rest) = trailSp (d :: rest) := by
        unfold trailSp
        rw [hglcc, hsplit]
      have hleadd : leadSp (d :: rest) = [' '] := by
        simp [leadSp, hd]
      rw [show collapseRuns (c :: d :: rest) = collapseRuns (d :: rest) by
          simp [collapseRuns, hc, hd],
        ihd, hleadd, htrail, hsplit]
      simp [leadSp, hc]

/-- Helper: trimming strips exactly the optional boundary spaces. -/
theorem trimSpaces_assemble (lead J trail : List Char)
    (hlead : lead = [] ∨ lead = [' '])
    (htrail : trail = [] ∨ trail = [' '])
    (hJhead : ∃ a t, J = a :: t ∧ (a == ' ') = false)
    (hJlast : ∃ jl, J.getLast? = some jl ∧ (jl == ' ') = false) :
    trimSpaces (lead ++ J ++ trail) = J := by
  obtain ⟨a, t, rfl, ha⟩ := hJhead
  obtain ⟨jl, hjl, hjlne⟩ := hJlast
  have h1 : trimLead (lead ++ (a :: t) ++ trail) = (a :: t) ++ trail := by
    rcases hlead with rfl | rfl
    · simp [trimLead, List.dropWhile_cons, ha]
    · simp [trimLead, List.dropWhile_cons, ha]
  unfold trimSpaces
  rw [h1]
  rcases htrail with rfl | rfl
  · rw [List.append_nil]
    exact trimTrail_id hjl hjlne
  · rw [trimTrail_append_space]
    exact trimTrail_id hjl hjlne

/-- Helper: splitting on whitespace and rejoining with single spaces is
the same as collapsing whitespace runs and trimming. -/
theorem trim_collapse_eq_join (cs : List Char) :
    trimSpaces (collapseRuns cs) = joinSpace (splitWs cs) := by
  cases cs with
  | nil => rfl
  | cons c0 cs0 =>
    rw [collapseRuns_decomp (c0 :: cs0) (by simp)]
    cases hsp : splitWs (c0 :: cs0) with
    | nil =>
      have htr : trailSp (c0 :: cs0) = [] := by
        simp [trailSp, hsp]
        cases (c0 :: cs0).getLast? <;> simp
      rw [htr]
      cases hc0 : rustIsWs c0 <;>
        simp [leadSp, hc0, joinSpace, trimSpaces, trimLead, trimTrail]
    | cons w L =>
      have hwf := splitWs_wf (c0 :: cs0)
      rw [hsp] at hwf
      obtain ⟨hwne, hwchars⟩ := hwf w (by simp)
      obtain ⟨a, w', rfl⟩ : ∃ a w', w = a :: w' := by
        cases w with
        | nil => exact absurd rfl hwne
        | cons a w' => exact ⟨a, w', rfl⟩
      obtain ⟨jl, hjl, hjlws⟩ := joinSpace_getLast (a :: w') L hwf
      obtain ⟨t, ht⟩ := joinSpace_cons_head a w' L
      apply trimSpaces_assemble
      · unfold leadSp
        cases (c0 :: cs0).head? with
        | none => exact Or.inl rfl
        | some x =>
          cases rustIsWs x <;> simp
      · unfold trailSp
        cases (c0 :: cs0).getLast? with
        | none => exact Or.inl rfl
        | some x =>
          cases hb : rustIsWs x && !(splitWs (c0 :: cs0)).isEmpty
          · exact Or.inl (by simp [hb])
          · exact Or.inr (by simp [hb])
      · exact ⟨a, t, ht,
          ne_space_of_not_ws (hwchars a (by simp))⟩
      · exact ⟨jl, hjl, ne_space_of_not_ws hjlws⟩

/-- C8: the preview is, for text, the lossy UTF-8 decode truncated to 200
code points with whitespace runs collapsed to single spaces and both
ends trimmed; for images, the PNG dimensions read as big-endian 32-bit
integers at offsets 16 and 20 when the MIME type is image/png and at
least 24 bytes are present, and the plain placeholder otherwise. -/
theorem generate_preview_spec (content : List Byte) (mime_type : String) :
    generate_preview content mime_type .Text = specTextPreview content ∧
    (mime_type = "image/png" → 24 ≤ content.length →
      generate_preview content mime_type .Image =
        "copied image (" ++
          toString (beU32 (content.getD 16 0) (content.getD 17 0)
            (content.getD 18 0) (content.getD 19 0)) ++ "x" ++
          toString (beU32 (content.getD 20 0) (content.getD 21 0)
            (content.getD 22 0) (content.getD 23 0)) ++ ")") ∧
    (¬(mime_type = "image/png" ∧ 24 ≤ content.length) →
      generate_preview content mime_type .Image = "copied image") := by
  refine ⟨?_, ?_, ?_⟩
  · show String.mk (joinSpace (splitWs ((utf8Lossy content).take 200))) =
      specTextPreview content
    unfold specTextPreview
    rw [trim_collapse_eq_join]
  · intro h1 h2
    show (if mime_type = "image/png" ∧ 24 ≤ content.length then _
      else _) = _
    rw [if_pos ⟨h1, h2⟩]
  · intro h
    show (if mime_type = "image/png" ∧ 24 ≤ content.length then _
      else _) = _
    rw [if_neg h]

/-- Witness for C8 on the PNG fixture and a small text capture. -/
theorem generate_preview_spec_witness :
    ("image/png" : String) = "image/png" ∧ 24 ≤ pngBytes.length ∧
    generate_preview pngBytes "image/png" .Image =
      "copied image (4x2)" ∧
    generate_preview [32, 104, 105, 10] "text/plain" .Text =
      specTextPreview [32, 104, 105, 10] := by
  refine ⟨rfl, by decide, ?_,
    (generate_preview_spec [32, 104, 105, 10] "text/plain").1⟩
  have h := (generate_preview_spec pngBytes "image/png").2.1 rfl (by decide)
  rw [h]
  rfl

end Wayclip
